import Mathlib

/-!
# kubernetes-term: the socket.io to pod-exec terminal bridge

A shallow embedding of `server.go` (and of the parts `term-server.go` shares
with it): the three stream adapters `SocketIoWriter`, `SocketIoReader`,
`SocketIoSizeQueue`, the request builder `NewExecRequest`, and the
per-connection event handlers together with the session goroutine.

Conventions of the embedding.

* A Go `[]byte` is a `List Byte`; a Go `string` that carries raw payload is a
  `GoString` (the same bytes); names decoded from JSON are Lean `String`s.
* A Go `error` is an `Option Error`, `none` being `nil`.
* A buffered channel is a FIFO list with a capacity.  An operation that would
  block (send on a full channel, receive on an empty one) yields `none`: the
  operation is not enabled in that state.
* The socket.io transport, `encoding/json`, the pod lookup, the SPDY executor
  and the remote stream are collaborators outside the repository.  Their
  results are inputs: fields of `Env` or arguments of the step labels.
* `log.Print*` only writes to the process log and is left out; `log.Fatal`
  terminates the process and is modelled by the flag `Conn.exited`.
-/

namespace KubernetesTerm

/-! ## Data model -/

/-- One octet of a Go byte slice. -/
abbrev Byte := Fin 256

/-- Go `uint16`. -/
abbrev Uint16 := Fin 65536

/-- Go `error` values; `Option Error` is an `error` that may be `nil`. -/
abbrev Error := String

/-- Go `string` holding payload bytes. -/
structure GoString where
  bytes : List Byte
deriving DecidableEq, Repr

/-- Conversion `string(p)` of a byte slice: the same bytes. -/
def string (p : List Byte) : GoString := ⟨p⟩

/-- Conversion `[]byte(s)` of a string: the same bytes. -/
def toBytes (s : GoString) : List Byte := s.bytes

/-- Go `len` of a `string`: its number of bytes. -/
def len (s : String) : Nat := s.utf8ByteSize

/-- Go builtin `copy(dst, src)`: overwrites the first `min (len dst) (len src)`
elements of `dst` with those of `src` and returns that number. -/
def copy (dst src : List Byte) : List Byte × Nat :=
  let n := min dst.length src.length
  (src.take n ++ dst.drop n, n)

/-- Payload of `term:connect` (`TermConnectPayload`). -/
structure TermConnectPayload where
  Namespace : String
  PodName : String
  ContainerName : String
deriving DecidableEq, Repr

/-- Payload of `term:resize` (`TermSizePayload`). -/
structure TermSizePayload where
  Columns : Uint16
  Rows : Uint16
deriving DecidableEq, Repr

/-- The struct `remotecommand.TerminalSize`. -/
structure TerminalSize where
  Width : Uint16
  Height : Uint16
deriving DecidableEq, Repr

/-! ## Buffered channels -/

/-- Buffered Go channel `make(chan α, cap)`: the queued values, oldest first. -/
structure Chan (α : Type) where
  cap : Nat
  buf : List α
deriving DecidableEq, Repr

/-- The call `make(chan α, cap)`. -/
def Chan.make {α : Type} (cap : Nat) : Chan α := ⟨cap, []⟩

/-- Send `c <- v`; `none` when the buffer is full (the sender blocks). -/
def Chan.send {α : Type} (c : Chan α) (v : α) : Option (Chan α) :=
  if c.buf.length < c.cap then some { c with buf := c.buf ++ [v] } else none

/-- Receive `<-c`; `none` when the buffer is empty (the receiver blocks). -/
def Chan.recv {α : Type} (c : Chan α) : Option (α × Chan α) :=
  match c.buf with
  | [] => none
  | v :: rest => some (v, { c with buf := rest })

/-! ## SocketIoSizeQueue -/

/-- The struct `SocketIoSizeQueue`. -/
structure SocketIoSizeQueue where
  C : Chan TerminalSize
deriving DecidableEq, Repr

/-- Method `Push`: `q.C <- &TerminalSize{Width: cols, Height: rows}`. -/
def SocketIoSizeQueue.Push (q : SocketIoSizeQueue) (cols rows : Uint16) :
    Option SocketIoSizeQueue :=
  (q.C.send { Width := cols, Height := rows }).map fun c => { C := c }

/-- Method `Next`: `return <-q.C`. -/
def SocketIoSizeQueue.Next (q : SocketIoSizeQueue) :
    Option (TerminalSize × SocketIoSizeQueue) :=
  (q.C.recv).map fun r => (r.1, { C := r.2 })

/-! ## SocketIoReader -/

/-- The struct `SocketIoReader` (its `Socket` field is never used by the methods). -/
structure SocketIoReader where
  Event : String
  Buffer : Chan (List Byte)
deriving DecidableEq, Repr

/-- Result `(n, err)` of an `io.Writer` style call. -/
structure IoResult where
  n : Nat
  err : Option Error
deriving DecidableEq, Repr

/-- Method `SocketIoReader.Write`: `r.Buffer <- p; return len(p), nil`. -/
def SocketIoReader.Write (r : SocketIoReader) (p : List Byte) :
    Option (SocketIoReader × IoResult) :=
  (r.Buffer.send p).map fun b => ({ r with Buffer := b }, { n := p.length, err := none })

/-- Method `SocketIoReader.Read`: `data := <-r.Buffer; n = copy(p, data); return n, err`.
The second component is the destination slice `p` after the call. -/
def SocketIoReader.Read (r : SocketIoReader) (p : List Byte) :
    Option (SocketIoReader × List Byte × IoResult) :=
  match r.Buffer.recv with
  | none => none
  | some (data, b) =>
    let err : Option Error := none
    let c := copy p data
    some ({ r with Buffer := b }, c.1, { n := c.2, err := err })

/-! ## The socket.io transport and SocketIoWriter -/

/-- One call of `Socket.Emit(event, args...)`. -/
structure Emission where
  event : String
  args : List GoString
deriving DecidableEq, Repr

/-- The socket of one client connection: the emissions attempted so far. -/
structure Socket where
  emitted : List Emission
deriving DecidableEq, Repr

/-- The transport's answer to an emission, given the emissions attempted before. -/
abbrev EmitResult := List Emission → Emission → Option Error

/-- The call `socket.Emit(event, args...)`: records the attempt and returns
the transport's error. -/
def Socket.Emit (emitResult : EmitResult) (s : Socket) (event : String)
    (args : List GoString) : Socket × Option Error :=
  ({ emitted := s.emitted ++ [⟨event, args⟩] }, emitResult s.emitted ⟨event, args⟩)

/-- The struct `SocketIoWriter`; its `Socket` is the connection's socket, passed
to `Write` as state. -/
structure SocketIoWriter where
  Event : String
deriving DecidableEq, Repr

/-- Method `SocketIoWriter.Write`.  The result `err` is the named result
parameter, which holds its zero value `nil`; the `err` declared by
`if err := w.Socket.Emit(...)` is a new variable scoped to the `if`. -/
def SocketIoWriter.Write (emitResult : EmitResult) (w : SocketIoWriter) (s : Socket)
    (p : List Byte) : Socket × IoResult :=
  let err : Option Error := none
  let data := string p
  let r := s.Emit emitResult w.Event [data]
  let _errInner := r.2
  (r.1, { n := p.length, err := err })

/-! ## The exec request -/

/-- The struct `corev1.PodExecOptions`, as far as the code sets it. -/
structure PodExecOptions where
  Container : String
  Command : List String
  Stdin : Bool
  Stdout : Bool
  Stderr : Bool
  TTY : Bool
deriving DecidableEq, Repr

/-- A `rest.Request` under construction: what the builder calls have set. -/
structure Request where
  verb : String
  pathPrefix : String
  resource : String
  name : String
  ns : String
  subResource : String
  params : List (String × String)
  versioned : List PodExecOptions
deriving DecidableEq, Repr

/-- Builder `rest.Post()`. -/
def Request.Post : Request :=
  { verb := "POST", pathPrefix := "", resource := "", name := "", ns := "",
    subResource := "", params := [], versioned := [] }

/-- Builder `.Prefix(s)`. -/
def Request.Prefix (r : Request) (s : String) : Request := { r with pathPrefix := s }

/-- Builder `.Resource(s)`. -/
def Request.Resource (r : Request) (s : String) : Request := { r with resource := s }

/-- Builder `.Name(s)`. -/
def Request.Name (r : Request) (s : String) : Request := { r with name := s }

/-- Builder `.Namespace(s)`. -/
def Request.Namespace (r : Request) (s : String) : Request := { r with ns := s }

/-- Builder `.SubResource(s)`. -/
def Request.SubResource (r : Request) (s : String) : Request := { r with subResource := s }

/-- Builder `.Param(k, v)`. -/
def Request.Param (r : Request) (k v : String) : Request :=
  { r with params := r.params ++ [(k, v)] }

/-- Builder `.VersionedParams(opts, codec)`. -/
def Request.VersionedParams (r : Request) (o : PodExecOptions) : Request :=
  { r with versioned := r.versioned ++ [o] }

/-- Function `NewExecRequest(clientset, p)`.  The namespace is the constant
`default`; `p.Namespace` is not read.  The request carries the parameter
`tty` = `true`, while the versioned options have `TTY: false` under the
source comment `tty is not allocated for the call`. -/
def NewExecRequest (p : TermConnectPayload) : Request :=
  let req := ((((((((((Request.Post.Prefix "/api/v1").Resource "pods").Name p.PodName).Namespace
    "default").SubResource "exec").Param "container" p.ContainerName).Param "stdin"
    "true").Param "stdout" "true").Param "stderr" "true").Param "tty" "true").Param
    "command" "/bin/sh"
  req.VersionedParams
    { Container := p.ContainerName, Command := ["sh"], Stdin := true, Stdout := true,
      Stderr := true, TTY := false }

/-! ## One client connection -/

/-- External collaborators of a connection: the transport's answers to
emissions and `json.Unmarshal` into the two payload structs. -/
structure Env where
  emitResult : EmitResult
  unmarshalConnect : List Byte → Except Error TermConnectPayload
  unmarshalSize : List Byte → Except Error TermSizePayload

/-- A session goroutine started by the `term:connect` handler. -/
inductive Task where
  /-- Started; `fn` has not yet created the executor. -/
  | sending (p : TermConnectPayload)
  /-- Inside `exec.Stream` for the request built by `NewExecRequest`. -/
  | streaming (req : Request)
  /-- The session goroutine has returned after `exec.Stream` returned nil. -/
  | done
deriving DecidableEq, Repr

/-- State of one client connection: the closure variables of the
`connection` handler, the pod lookups issued, the session goroutines and
whether `log.Fatal` has ended the process. -/
structure Conn where
  socket : Socket
  stdinReader : SocketIoReader
  sizeQueue : SocketIoSizeQueue
  podGets : List (String × String)
  tasks : List Task
  exited : Bool
deriving DecidableEq, Repr

/-- Variable `stdoutWriter` of the `connection` handler. -/
def stdoutWriter : SocketIoWriter := { Event := "term:stdout" }

/-- Variable `stderrWriter` of the `connection` handler. -/
def stderrWriter : SocketIoWriter := { Event := "term:stderr" }

/-- Body of the `connection` handler up to the registration of the event
handlers: emits `open` and creates the adapters. -/
def onConnection (env : Env) : Conn :=
  { socket := (Socket.Emit env.emitResult { emitted := [] } "open" []).1,
    stdinReader := { Event := "term:stdin", Buffer := Chan.make 30 },
    sizeQueue := { C := Chan.make 10 },
    podGets := [], tasks := [], exited := false }

/-- The statement `if len(p.Namespace) == 0 { p.Namespace = "default" }` of the
`term:connect` handler. -/
def defaulted (p : TermConnectPayload) : TermConnectPayload :=
  if len p.Namespace = 0 then { p with Namespace := "default" } else p

/-- Handler of `term:connect`.  `lookup` is the error returned by
`clientset.Core().Pods(p.Namespace).Get(p.PodName, ...)`, consulted only when
the handler reaches that call. -/
def onTermConnect (env : Env) (lookup : Option Error) (c : Conn) (data : GoString) : Conn :=
  match env.unmarshalConnect (toBytes data) with
  | .error _ => c
  | .ok p0 =>
    let p := defaulted p0
    if len p.PodName = 0 then c
    else
      let c1 := { c with podGets := c.podGets ++ [(p.Namespace, p.PodName)] }
      match lookup with
      | some _ => c1
      | none => { c1 with tasks := c1.tasks ++ [Task.sending p] }

/-- Handler of `term:stdin`: `stdinReader.Write([]byte(data))`. -/
def onTermStdin (c : Conn) (data : GoString) : Option Conn :=
  (c.stdinReader.Write (toBytes data)).map fun r => { c with stdinReader := r.1 }

/-- Handler of `term:resize`. -/
def onTermResize (env : Env) (c : Conn) (data : GoString) : Option Conn :=
  match env.unmarshalSize (toBytes data) with
  | .error _ => some c
  | .ok p => (c.sizeQueue.Push p.Columns p.Rows).map fun q => { c with sizeQueue := q }

/-- The session goroutine after `fn()` has returned `fnResult`: on an error
`log.Fatal` ends the process, otherwise `term:terminated` is emitted. -/
def goroutineReturn (env : Env) (c : Conn) (i : Nat) (fnResult : Option Error) : Conn :=
  match fnResult with
  | some _ => { c with exited := true }
  | none =>
    { c with socket := (c.socket.Emit env.emitResult "term:terminated" []).1,
             tasks := c.tasks.set i Task.done }

/-- First part of `fn`: `NewExecRequest`, then `remotecommand.NewSPDYExecutor`
with result `executor`.  On an error `fn` returns it; otherwise
`term:connected` is emitted and `exec.Stream` is entered. -/
def fnOpen (env : Env) (c : Conn) (i : Nat) (p : TermConnectPayload)
    (executor : Option Error) : Conn :=
  let req := NewExecRequest p
  match executor with
  | some err => goroutineReturn env c i (some err)
  | none =>
    { c with socket := (c.socket.Emit env.emitResult "term:connected" []).1,
             tasks := c.tasks.set i (Task.streaming req) }

/-- Events of one connection: the three inbound client events and the
actions of session number `i`: its goroutine creating the executor, the
calls on the adapters made by `exec.Stream` and by the goroutines it starts,
and the return of `exec.Stream`. -/
inductive Label where
  | termConnect (data : GoString) (lookup : Option Error)
  | termStdin (data : GoString)
  | termResize (data : GoString)
  | newExecutor (i : Nat) (res : Option Error)
  | streamRead (i : Nat) (p : List Byte)
  | streamWrite (i : Nat) (toStderr : Bool) (p : List Byte)
  | streamNext (i : Nat)
  | streamReturn (i : Nat) (res : Option Error)
deriving DecidableEq, Repr

/-- One step of a connection; `none` when the step is not enabled (the
process has exited, the goroutine is not at that point, or a channel
operation blocks).  `exec.Stream` copies stdin and polls the resize queue in
goroutines of their own, which it does not stop when it returns: neither
`SocketIoReader` nor `SocketIoSizeQueue` can signal an end, so `Read` and
`Next` stay enabled for a session whose stream has returned.  Writes to the
two writers are made only while `exec.Stream` runs. -/
def step (env : Env) (c : Conn) (l : Label) : Option Conn :=
  if c.exited then none
  else
    match l with
    | .termConnect data lookup => some (onTermConnect env lookup c data)
    | .termStdin data => onTermStdin c data
    | .termResize data => onTermResize env c data
    | .newExecutor i res =>
      match c.tasks[i]? with
      | some (Task.sending p) => some (fnOpen env c i p res)
      | _ => none
    | .streamRead i p =>
      match c.tasks[i]? with
      | some (Task.streaming _) =>
        (c.stdinReader.Read p).map fun r => { c with stdinReader := r.1 }
      | some Task.done =>
        (c.stdinReader.Read p).map fun r => { c with stdinReader := r.1 }
      | _ => none
    | .streamWrite i toStderr p =>
      match c.tasks[i]? with
      | some (Task.streaming _) =>
        let w := if toStderr then stderrWriter else stdoutWriter
        some { c with socket := (w.Write env.emitResult c.socket p).1 }
      | _ => none
    | .streamNext i =>
      match c.tasks[i]? with
      | some (Task.streaming _) =>
        (c.sizeQueue.Next).map fun r => { c with sizeQueue := r.2 }
      | some Task.done =>
        (c.sizeQueue.Next).map fun r => { c with sizeQueue := r.2 }
      | _ => none
    | .streamReturn i res =>
      match c.tasks[i]? with
      | some (Task.streaming _) => some (goroutineReturn env c i res)
      | _ => none

/-- Runs a sequence of steps; `none` when one of them is not enabled. -/
def run (env : Env) (c : Conn) : List Label → Option Conn
  | [] => some c
  | l :: ls => (step env c l).bind fun c1 => run env c1 ls

/-- Number of sessions inside `exec.Stream`. -/
def liveSessions (c : Conn) : Nat :=
  c.tasks.countP fun t => match t with
    | Task.streaming _ => true
    | _ => false

/-- Number of `term:terminated` events emitted on the socket so far. -/
def terminated (c : Conn) : Nat :=
  c.socket.emitted.countP fun e => decide (e.event = "term:terminated")

/-- Number of returns of `fn` with a nil error in a trace. -/
def returnsNil (ls : List Label) : Nat :=
  ls.countP fun l => match l with
    | .streamReturn _ none => true
    | _ => false

/-- Number of `term:connect` events in a trace. -/
def connects (ls : List Label) : Nat :=
  ls.countP fun l => match l with
    | .termConnect _ _ => true
    | _ => false

/-! ## Sequential runs of the adapters -/

/-- Successive `SocketIoReader.Write` calls; the results of the calls in order. -/
def writeAll (r : SocketIoReader) : List (List Byte) → Option (SocketIoReader × List IoResult)
  | [] => some (r, [])
  | p :: ps =>
    (r.Write p).bind fun a => (writeAll a.1 ps).map fun b => (b.1, a.2 :: b.2)

/-- Successive `SocketIoReader.Read` calls, one per destination slice; for
each call the destination after the call and the result. -/
def readAll (r : SocketIoReader) :
    List (List Byte) → Option (SocketIoReader × List (List Byte × IoResult))
  | [] => some (r, [])
  | p :: ps =>
    (r.Read p).bind fun a => (readAll a.1 ps).map fun b => (b.1, a.2 :: b.2)

/-- Successive `SocketIoSizeQueue.Push` calls. -/
def pushAll (q : SocketIoSizeQueue) : List (Uint16 × Uint16) → Option SocketIoSizeQueue
  | [] => some q
  | x :: xs => (q.Push x.1 x.2).bind fun q1 => pushAll q1 xs

/-- Successive `SocketIoSizeQueue.Next` calls, `k` of them; the sizes returned. -/
def nextAll (q : SocketIoSizeQueue) : Nat → Option (SocketIoSizeQueue × List TerminalSize)
  | 0 => some (q, [])
  | k + 1 => (q.Next).bind fun a => (nextAll a.2 k).map fun b => (b.1, a.1 :: b.2)

/-- Successive `SocketIoWriter.Write` calls on one socket; the results in order. -/
def writeSeq (emitResult : EmitResult) (w : SocketIoWriter) (s : Socket) :
    List (List Byte) → Socket × List IoResult
  | [] => (s, [])
  | p :: ps =>
    let a := w.Write emitResult s p
    let b := writeSeq emitResult w a.1 ps
    (b.1, a.2 :: b.2)

/-- Operations on the resize queue. -/
inductive QueueOp where
  | Push (cols rows : Uint16)
  | Next
deriving DecidableEq, Repr

/-- A resize queue with its history: the sizes accepted by a `Push` so far and
the sizes returned by a `Next` so far, both in order. -/
structure QueueTrace where
  queue : SocketIoSizeQueue
  accepted : List TerminalSize
  returned : List TerminalSize
deriving DecidableEq, Repr

/-- The queue created per connection, `make(chan *TerminalSize, 10)`, with an
empty history. -/
def QueueTrace.init : QueueTrace :=
  { queue := { C := Chan.make 10 }, accepted := [], returned := [] }

/-- One step of the resize queue; `none` when the operation blocks. -/
def QueueTrace.step (t : QueueTrace) : QueueOp → Option QueueTrace
  | .Push cols rows =>
    (t.queue.Push cols rows).map fun q =>
      { t with queue := q, accepted := t.accepted ++ [{ Width := cols, Height := rows }] }
  | .Next =>
    (t.queue.Next).map fun r => { t with queue := r.2, returned := t.returned ++ [r.1] }

/-- Runs a sequence of queue operations; `none` when one of them blocks. -/
def QueueTrace.run (t : QueueTrace) : List QueueOp → Option QueueTrace
  | [] => some t
  | o :: os => (t.step o).bind fun t1 => t1.run os

/-- Invariant of the resize queue with its history: capacity 10, at most 10
queued values, and the accepted values are the returned ones followed by the
queued ones. -/
def QueueTrace.Inv (t : QueueTrace) : Prop :=
  t.queue.C.cap = 10 ∧ t.queue.C.buf.length ≤ 10 ∧ t.accepted = t.returned ++ t.queue.C.buf

/-! ## Concrete collaborators used in the examples -/

/-- The bytes of the JSON text `{"pod":""}`. -/
def jsonEmptyPod : List Byte :=
  [123, 34, 112, 111, 100, 34, 58, 34, 34, 125]

/-- The bytes of the JSON text `{"pod":"mongo-0","container":"mongo"}`. -/
def jsonPod : List Byte :=
  [123, 34, 112, 111, 100, 34, 58, 34, 109, 111, 110, 103, 111, 45, 48, 34,
   44, 34, 99, 111, 110, 116, 97, 105, 110, 101, 114, 34, 58, 34, 109, 111,
   110, 103, 111, 34, 125]

/-- The bytes of the JSON text `{"namespace":"kube-system","pod":"mongo-0"}`. -/
def jsonNsPod : List Byte :=
  [123, 34, 110, 97, 109, 101, 115, 112, 97, 99, 101, 34, 58, 34, 107, 117,
   98, 101, 45, 115, 121, 115, 116, 101, 109, 34, 44, 34, 112, 111, 100, 34,
   58, 34, 109, 111, 110, 103, 111, 45, 48, 34, 125]

/-- The bytes of the JSON text `{"cols":80,"rows":24}`. -/
def jsonSize : List Byte :=
  [123, 34, 99, 111, 108, 115, 34, 58, 56, 48, 44, 34, 114, 111, 119, 115, 34,
   58, 50, 52, 125]

/-- An environment whose transport never fails and whose `json.Unmarshal`
is given on the texts above (any other text is reported as malformed). -/
def env0 : Env :=
  { emitResult := fun _ _ => none,
    unmarshalConnect := fun b =>
      if b = jsonEmptyPod then .ok { Namespace := "", PodName := "", ContainerName := "" }
      else if b = jsonPod then
        .ok { Namespace := "", PodName := "mongo-0", ContainerName := "mongo" }
      else if b = jsonNsPod then
        .ok { Namespace := "kube-system", PodName := "mongo-0", ContainerName := "" }
      else .error "invalid character",
    unmarshalSize := fun b =>
      if b = jsonSize then .ok { Columns := 80, Rows := 24 }
      else .error "invalid character" }

/-- A transport whose every emission fails. -/
def emitFails : EmitResult := fun _ _ => some "client disconnected"


/-! ## Basic facts -/

theorem len_eq_zero_iff (s : String) : len s = 0 ↔ s = "" := by
  cases s with
  | mk cs =>
    simp only [len, String.utf8ByteSize_mk, String.utf8Len_eq_zero]
    constructor
    · intro h; subst h; rfl
    · intro h; exact congrArg String.data h

theorem Write_err_nil (emitResult : EmitResult) (w : SocketIoWriter) (s : Socket)
    (p : List Byte) : (w.Write emitResult s p).2.err = none := rfl

theorem Write_n (emitResult : EmitResult) (w : SocketIoWriter) (s : Socket)
    (p : List Byte) : (w.Write emitResult s p).2.n = p.length := rfl

theorem Write_emitted (emitResult : EmitResult) (w : SocketIoWriter) (s : Socket)
    (p : List Byte) :
    (w.Write emitResult s p).1.emitted = s.emitted ++ [⟨w.Event, [string p]⟩] := rfl

/-! ## SocketIoWriter -/

/-- C1, at the failing input: the chunk `hi` written to the stdout writer of a
socket whose `Emit` fails.  `Emit` returns the error `client disconnected`,
and `Write` returns `(2, nil)`: the error does not reach the caller. -/
theorem Write_swallows_emit_error :
    (Socket.Emit emitFails { emitted := [] } stdoutWriter.Event [string [104, 105]]).2
        = some "client disconnected"
      ∧ (stdoutWriter.Write emitFails { emitted := [] } [104, 105]).2
        = { n := 2, err := none } := by
  decide

/-- C8: successive `Write` calls with chunks `p1..pk` on a writer with event
name `E` attempt exactly the emissions `(E, string(p1)), ..., (E, string(pk))`
after those already made, one per call and in call order, each carrying the
bytes of its chunk; each call returns `n = len(pi)`; and the stdout and stderr
writers have the distinct names `term:stdout` and `term:stderr`. -/
theorem writeSeq_one_emission_per_chunk (emitResult : EmitResult) (w : SocketIoWriter)
    (s : Socket) (ps : List (List Byte)) :
    (writeSeq emitResult w s ps).1.emitted
        = s.emitted ++ ps.map (fun p => ({ event := w.Event, args := [string p] } : Emission))
      ∧ (writeSeq emitResult w s ps).2.map IoResult.n = ps.map List.length
      ∧ (∀ p : List Byte, toBytes (string p) = p)
      ∧ stdoutWriter.Event = "term:stdout" ∧ stderrWriter.Event = "term:stderr"
      ∧ stdoutWriter.Event ≠ stderrWriter.Event := by
  refine ⟨?_, ?_, fun _ => rfl, rfl, rfl, by decide⟩
  · induction ps generalizing s with
    | nil => simp [writeSeq]
    | cons p ps ih =>
      simp only [writeSeq, List.map_cons]
      rw [ih, Write_emitted]
      simp
  · induction ps generalizing s with
    | nil => simp [writeSeq]
    | cons p ps ih =>
      simp only [writeSeq, List.map_cons]
      rw [ih, Write_n]

/-! ## SocketIoReader -/

theorem writeAll_eq (r : SocketIoReader) (chunks : List (List Byte))
    (h : r.Buffer.buf.length + chunks.length ≤ r.Buffer.cap) :
    writeAll r chunks
      = some ({ r with Buffer := { r.Buffer with buf := r.Buffer.buf ++ chunks } },
              chunks.map fun c => { n := c.length, err := none }) := by
  induction chunks generalizing r with
  | nil => simp [writeAll]
  | cons p ps ih =>
    have hlt : r.Buffer.buf.length < r.Buffer.cap := by
      simp only [List.length_cons] at h; omega
    have hw : r.Write p
        = some ({ r with Buffer := { r.Buffer with buf := r.Buffer.buf ++ [p] } },
                { n := p.length, err := none }) := by
      simp [SocketIoReader.Write, Chan.send, hlt]
    have h2 : (r.Buffer.buf ++ [p]).length + ps.length ≤ r.Buffer.cap := by
      simp only [List.length_cons, List.length_append, List.length_nil] at h ⊢; omega
    simp only [writeAll, hw, Option.some_bind]
    rw [ih _ h2]
    simp

theorem readAll_eq (r : SocketIoReader) (chunks dsts rest : List (List Byte))
    (hb : r.Buffer.buf = chunks ++ rest) (hl : dsts.length = chunks.length) :
    readAll r dsts
      = some ({ r with Buffer := { r.Buffer with buf := rest } },
              List.zipWith (fun c d => ((copy d c).1, { n := (copy d c).2, err := none }))
                chunks dsts) := by
  induction chunks generalizing r dsts with
  | nil =>
    cases dsts with
    | nil =>
      cases r with
      | mk ev b => cases b with
        | mk cap buf => simp at hb; simp [readAll, hb]
    | cons d ds => simp at hl
  | cons c cs ih =>
    cases dsts with
    | nil => simp at hl
    | cons d ds =>
      have hr : r.Read d
          = some ({ r with Buffer := { r.Buffer with buf := cs ++ rest } },
                  (copy d c).1, { n := (copy d c).2, err := none }) := by
        simp [SocketIoReader.Read, Chan.recv, hb]
      have hl2 : ds.length = cs.length := by simpa using hl
      simp only [readAll, hr, Option.some_bind]
      rw [ih _ ds rfl hl2]
      simp

theorem copy_fits (d c : List Byte) (h : c.length ≤ d.length) :
    (copy d c).2 = c.length ∧ (copy d c).1.take (copy d c).2 = c := by
  have hmin : min d.length c.length = c.length := Nat.min_eq_right h
  simp [copy, hmin]

/-- C2, counterexample: one chunk of three bytes is written to the empty
stdin buffer and read into a destination of two bytes.  `Read` returns
`n = 2` with the destination holding the first two bytes, and the buffer is
empty afterwards: the third byte is lost, so the read does not deliver
exactly the bytes of the chunk. -/
theorem Read_truncates_to_destination :
    (writeAll { Event := "term:stdin", Buffer := Chan.make 30 } [[1, 2, 3]]).bind
        (fun a => readAll a.1 [[0, 0]])
        = some ({ Event := "term:stdin", Buffer := { cap := 30, buf := [] } },
                [([1, 2], { n := 2, err := none })])
      ∧ ¬ ((2 : Nat) = ([1, 2, 3] : List Byte).length
            ∧ ([1, 2] : List Byte).take 2 = [1, 2, 3]) := by
  decide

/-- C2, amended: from an empty buffer of capacity 30, for chunks `c1..cN` with
`N ≤ 30` passed to `SocketIoReader.Write` and destinations `d1..dN` each at
least as long as its chunk, every `Write` returns `(len(ck), nil)`, and the
`N` subsequent `Read` calls all return, the k-th with `n = len(ck)`, a nil
error and the first `n` bytes of its destination equal to `ck`; the buffer
is empty afterwards. -/
theorem Reader_fifo_whole_chunks (ev : String) (chunks dsts : List (List Byte))
    (hN : chunks.length ≤ 30)
    (hfit : List.Forall₂ (fun c d => c.length ≤ d.length) chunks dsts) :
    ∃ r1 r2 outs,
      writeAll { Event := ev, Buffer := Chan.make 30 } chunks
          = some (r1, chunks.map fun c => { n := c.length, err := none })
        ∧ readAll r1 dsts = some (r2, outs)
        ∧ r2.Buffer.buf = []
        ∧ List.Forall₂
            (fun c o => o.2.n = c.length ∧ o.2.err = none ∧ o.1.take o.2.n = c)
            chunks outs := by
  have hw := writeAll_eq { Event := ev, Buffer := Chan.make 30 } chunks
    (by simpa [Chan.make] using hN)
  have hr := readAll_eq
    { Event := ev, Buffer := { cap := 30, buf := chunks } } chunks dsts [] (by simp)
    hfit.length_eq.symm
  refine ⟨{ Event := ev, Buffer := { cap := 30, buf := chunks } },
    { Event := ev, Buffer := { cap := 30, buf := [] } },
    List.zipWith (fun c d => ((copy d c).1, { n := (copy d c).2, err := none })) chunks dsts,
    ?_, ?_, rfl, ?_⟩
  · simpa [Chan.make] using hw
  · simpa using hr
  · clear hw hr hN
    induction hfit with
    | nil => exact List.Forall₂.nil
    | cons h _ ih =>
      simp only [List.zipWith_cons_cons]
      exact List.Forall₂.cons ⟨(copy_fits _ _ h).1, rfl, (copy_fits _ _ h).2⟩ ih

/-- C2, witness: two chunks read into destinations of four bytes each. -/
theorem Reader_fifo_whole_chunks_witness :
    ∃ r1 r2 outs,
      writeAll { Event := "term:stdin", Buffer := Chan.make 30 } [[1, 2, 3], [4]]
          = some (r1, [[1, 2, 3], [4]].map fun c => { n := c.length, err := none })
        ∧ readAll r1 [[0, 0, 0, 0], [9, 9, 9, 9]] = some (r2, outs)
        ∧ r2.Buffer.buf = []
        ∧ List.Forall₂
            (fun c o => o.2.n = c.length ∧ o.2.err = none ∧ o.1.take o.2.n = c)
            [[1, 2, 3], [4]] outs :=
  Reader_fifo_whole_chunks "term:stdin" [[1, 2, 3], [4]] [[0, 0, 0, 0], [9, 9, 9, 9]]
    (by decide)
    (List.Forall₂.cons (by decide) (List.Forall₂.cons (by decide) List.Forall₂.nil))

/-! ## SocketIoSizeQueue -/

theorem Push_eq (q : SocketIoSizeQueue) (cols rows : Uint16)
    (h : q.C.buf.length < q.C.cap) :
    q.Push cols rows
      = some { C := { q.C with buf := q.C.buf ++ [{ Width := cols, Height := rows }] } } := by
  simp [SocketIoSizeQueue.Push, Chan.send, h]

theorem Push_full (q : SocketIoSizeQueue) (cols rows : Uint16)
    (h : q.C.cap ≤ q.C.buf.length) : q.Push cols rows = none := by
  simp [SocketIoSizeQueue.Push, Chan.send, Nat.not_lt.mpr h]

theorem pushAll_eq (q : SocketIoSizeQueue) (xs : List (Uint16 × Uint16))
    (h : q.C.buf.length + xs.length ≤ q.C.cap) :
    pushAll q xs
      = some { C := { q.C with
                      buf := q.C.buf ++ xs.map fun x => { Width := x.1, Height := x.2 } } } := by
  induction xs generalizing q with
  | nil => simp [pushAll]
  | cons x xs ih =>
    have hlt : q.C.buf.length < q.C.cap := by
      simp only [List.length_cons] at h; omega
    have h2 : (q.C.buf ++ [({ Width := x.1, Height := x.2 } : TerminalSize)]).length
        + xs.length ≤ q.C.cap := by
      simp only [List.length_cons, List.length_append, List.length_nil] at h ⊢; omega
    simp only [pushAll, Push_eq q x.1 x.2 hlt, Option.some_bind]
    rw [ih _ h2]
    simp

theorem nextAll_eq (q : SocketIoSizeQueue) (ts rest : List TerminalSize)
    (hb : q.C.buf = ts ++ rest) :
    nextAll q ts.length = some ({ C := { q.C with buf := rest } }, ts) := by
  induction ts generalizing q with
  | nil =>
    cases q with
    | mk c => cases c with
      | mk cap buf => simp at hb; simp [nextAll, hb]
  | cons t ts ih =>
    have hn : q.Next = some (t, { C := { q.C with buf := ts ++ rest } }) := by
      simp [SocketIoSizeQueue.Next, Chan.recv, hb]
    simp only [List.length_cons, nextAll, hn, Option.some_bind]
    rw [ih _ rfl]
    simp

/-- C6: on the empty queue of capacity 10, `N ≤ 10` calls `Push(cols, rows)`
all return, and the `N` subsequent `Next()` calls all return, giving the
terminal sizes whose `(Width, Height)` are the pushed `(cols, rows)` in the
order pushed, after which the queue is empty; in particular two consecutive
pushes of the same values leave two entries in the queue. -/
theorem SizeQueue_fifo (xs : List (Uint16 × Uint16)) (hN : xs.length ≤ 10) :
    (∃ q1 q2,
      pushAll { C := Chan.make 10 } xs = some q1
        ∧ nextAll q1 xs.length
            = some (q2, xs.map fun x => { Width := x.1, Height := x.2 })
        ∧ q2.C.buf = [])
      ∧ ∀ cols rows : Uint16,
          (pushAll { C := Chan.make 10 } [(cols, rows), (cols, rows)]).map (fun q => q.C.buf)
            = some [{ Width := cols, Height := rows }, { Width := cols, Height := rows }] := by
  constructor
  · have hp := pushAll_eq { C := Chan.make 10 } xs (by simpa [Chan.make] using hN)
    have hn := nextAll_eq
      { C := { cap := 10, buf := xs.map fun x => { Width := x.1, Height := x.2 } } }
      (xs.map fun x => { Width := x.1, Height := x.2 }) [] (by simp)
    refine ⟨{ C := { cap := 10, buf := xs.map fun x => { Width := x.1, Height := x.2 } } },
      { C := { cap := 10, buf := [] } }, ?_, ?_, rfl⟩
    · simpa [Chan.make] using hp
    · simpa using hn
  · intro cols rows
    rfl

/-- C6, witness: three pushes, the last two with identical values. -/
theorem SizeQueue_fifo_witness :
    (∃ q1 q2,
      pushAll { C := Chan.make 10 } [(80, 24), (120, 40), (120, 40)] = some q1
        ∧ nextAll q1 [((80 : Uint16), (24 : Uint16)), (120, 40), (120, 40)].length
            = some (q2, [((80 : Uint16), (24 : Uint16)), (120, 40), (120, 40)].map
                fun x => { Width := x.1, Height := x.2 })
        ∧ q2.C.buf = [])
      ∧ ∀ cols rows : Uint16,
          (pushAll { C := Chan.make 10 } [(cols, rows), (cols, rows)]).map (fun q => q.C.buf)
            = some [{ Width := cols, Height := rows }, { Width := cols, Height := rows }] :=
  SizeQueue_fifo [(80, 24), (120, 40), (120, 40)] (by decide)

theorem QueueTrace.step_inv (t t1 : QueueTrace) (o : QueueOp) (hi : t.Inv)
    (hs : t.step o = some t1) : t1.Inv := by
  obtain ⟨hcap, hlen, hacc⟩ := hi
  cases o with
  | Push cols rows =>
    by_cases hlt : t.queue.C.buf.length < t.queue.C.cap
    · simp only [QueueTrace.step, Push_eq _ cols rows hlt, Option.map_some'] at hs
      cases hs
      refine ⟨hcap, ?_, ?_⟩
      · simp only [List.length_append, List.length_cons, List.length_nil]; omega
      · simp [hacc]
    · simp [QueueTrace.step, Push_full _ cols rows (Nat.not_lt.mp hlt)] at hs
  | Next =>
    cases hq : t.queue.C.buf with
    | nil => simp [QueueTrace.step, SocketIoSizeQueue.Next, Chan.recv, hq] at hs
    | cons v rest =>
      simp only [QueueTrace.step, SocketIoSizeQueue.Next, Chan.recv, hq, Option.map_some']
        at hs
      cases hs
      refine ⟨hcap, ?_, ?_⟩
      · rw [hq] at hlen; simp only [List.length_cons] at hlen ⊢; omega
      · simp [hacc, hq]

theorem QueueTrace.run_inv (t t1 : QueueTrace) (ops : List QueueOp) (hi : t.Inv)
    (hr : t.run ops = some t1) : t1.Inv := by
  induction ops generalizing t with
  | nil => simp [QueueTrace.run] at hr; subst hr; exact hi
  | cons o os ih =>
    cases hs : t.step o with
    | none => simp [QueueTrace.run, hs] at hr
    | some t2 =>
      simp only [QueueTrace.run, hs, Option.some_bind] at hr
      exact ih t2 (QueueTrace.step_inv t t2 o hi hs) hr

/-- C7: in every state reached from the empty queue created per connection
by `Push` and `Next` steps, the queue holds at most 10 values; when it
holds 10 a `Push` is not enabled (it blocks, so no state with other queued
values arises from it); and the values accepted by `Push` so far are exactly
the values returned by `Next` so far followed by the values still queued, in
order: no accepted value is dropped or overwritten. -/
theorem SizeQueue_bounded_and_lossless (ops : List QueueOp) (t : QueueTrace)
    (h : QueueTrace.init.run ops = some t) :
    t.queue.C.buf.length ≤ 10
      ∧ (t.queue.C.buf.length = 10 →
          ∀ cols rows : Uint16,
            t.queue.Push cols rows = none ∧ t.step (QueueOp.Push cols rows) = none)
      ∧ t.accepted = t.returned ++ t.queue.C.buf := by
  have hinit : QueueTrace.init.Inv := ⟨rfl, by decide, rfl⟩
  obtain ⟨hcap, hlen, hacc⟩ := QueueTrace.run_inv _ t ops hinit h
  refine ⟨hlen, ?_, hacc⟩
  intro hfull cols rows
  have hp : t.queue.Push cols rows = none := Push_full _ cols rows (by omega)
  exact ⟨hp, by simp [QueueTrace.step, hp]⟩

/-- C7, witness: two pushes and one `Next` from the empty queue. -/
theorem SizeQueue_bounded_and_lossless_witness :
    QueueTrace.init.run [QueueOp.Push 80 24, QueueOp.Push 120 40, QueueOp.Next]
        = some { queue := { C := { cap := 10, buf := [{ Width := 120, Height := 40 }] } },
                 accepted := [{ Width := 80, Height := 24 }, { Width := 120, Height := 40 }],
                 returned := [{ Width := 80, Height := 24 }] }
      ∧ ([{ Width := 120, Height := 40 }] : List TerminalSize).length ≤ 10
      ∧ ([{ Width := 80, Height := 24 }, { Width := 120, Height := 40 }] : List TerminalSize)
          = [{ Width := 80, Height := 24 }] ++ [{ Width := 120, Height := 40 }] :=
  have h := SizeQueue_bounded_and_lossless
    [QueueOp.Push 80 24, QueueOp.Push 120 40, QueueOp.Next]
    { queue := { C := { cap := 10, buf := [{ Width := 120, Height := 40 }] } },
      accepted := [{ Width := 80, Height := 24 }, { Width := 120, Height := 40 }],
      returned := [{ Width := 80, Height := 24 }] } (by decide)
  ⟨by decide, h.1, h.2.2⟩

/-! ## The connection handlers and the session goroutine -/

theorem onTermConnect_error (env : Env) (lookup : Option Error) (c : Conn) (data : GoString)
    (e : Error) (h : env.unmarshalConnect (toBytes data) = .error e) :
    onTermConnect env lookup c data = c := by
  simp [onTermConnect, h]

theorem onTermConnect_no_pod (env : Env) (lookup : Option Error) (c : Conn) (data : GoString)
    (p : TermConnectPayload) (h : env.unmarshalConnect (toBytes data) = .ok p)
    (hp : p.PodName = "") : onTermConnect env lookup c data = c := by
  have h0 : len p.PodName = 0 := (len_eq_zero_iff _).mpr hp
  by_cases hn : len p.Namespace = 0 <;> simp [onTermConnect, defaulted, h, hn, h0]

theorem onTermConnect_found (env : Env) (c : Conn) (data : GoString)
    (p : TermConnectPayload) (h : env.unmarshalConnect (toBytes data) = .ok p)
    (hp : p.PodName ≠ "") :
    onTermConnect env none c data
      = { c with podGets := c.podGets ++ [((defaulted p).Namespace, p.PodName)],
                 tasks := c.tasks ++ [Task.sending (defaulted p)] } := by
  have h0 : ¬ len p.PodName = 0 := fun h => hp ((len_eq_zero_iff _).mp h)
  by_cases hn : len p.Namespace = 0 <;> simp [onTermConnect, defaulted, h, hn, h0]

/-- C5: when the payload of `term:connect` does not decode into
`TermConnectPayload`, or decodes with `pod` absent or empty, the handler leaves
the connection as it was: no emission (so no `term:connected`), no pod lookup,
no session goroutine, and the stdin buffer and resize queue unchanged. -/
theorem onTermConnect_rejects_malformed (env : Env) (lookup : Option Error) (c : Conn)
    (data : GoString)
    (h : (∃ e, env.unmarshalConnect (toBytes data) = .error e)
      ∨ (∃ p, env.unmarshalConnect (toBytes data) = .ok p ∧ p.PodName = "")) :
    (onTermConnect env lookup c data).socket.emitted = c.socket.emitted
      ∧ (onTermConnect env lookup c data).podGets = c.podGets
      ∧ (onTermConnect env lookup c data).tasks = c.tasks
      ∧ (onTermConnect env lookup c data).stdinReader = c.stdinReader
      ∧ (onTermConnect env lookup c data).sizeQueue = c.sizeQueue
      ∧ onTermConnect env lookup c data = c := by
  have hc : onTermConnect env lookup c data = c := by
    rcases h with ⟨e, he⟩ | ⟨p, hp, hpod⟩
    · exact onTermConnect_error env lookup c data e he
    · exact onTermConnect_no_pod env lookup c data p hp hpod
  rw [hc]
  exact ⟨rfl, rfl, rfl, rfl, rfl, rfl⟩

/-- C5, witness: the payload `{"pod":""}` on a fresh connection. -/
theorem onTermConnect_rejects_malformed_witness :
    (onTermConnect env0 none (onConnection env0) ⟨jsonEmptyPod⟩).socket.emitted
        = (onConnection env0).socket.emitted
      ∧ (onTermConnect env0 none (onConnection env0) ⟨jsonEmptyPod⟩).podGets
        = (onConnection env0).podGets
      ∧ (onTermConnect env0 none (onConnection env0) ⟨jsonEmptyPod⟩).tasks
        = (onConnection env0).tasks
      ∧ (onTermConnect env0 none (onConnection env0) ⟨jsonEmptyPod⟩).stdinReader
        = (onConnection env0).stdinReader
      ∧ (onTermConnect env0 none (onConnection env0) ⟨jsonEmptyPod⟩).sizeQueue
        = (onConnection env0).sizeQueue
      ∧ onTermConnect env0 none (onConnection env0) ⟨jsonEmptyPod⟩ = onConnection env0 :=
  onTermConnect_rejects_malformed env0 none (onConnection env0) ⟨jsonEmptyPod⟩
    (Or.inr ⟨{ Namespace := "", PodName := "", ContainerName := "" }, rfl, rfl⟩)

/-- C4, at the failing input: for the payload
`{"namespace":"kube-system","pod":"mongo-0"}` the handler looks the pod up in
namespace `kube-system` and starts the goroutine with that payload, and the
request `NewExecRequest` builds for it targets namespace `default`. -/
theorem NewExecRequest_ignores_payload_namespace :
    (onTermConnect env0 none (onConnection env0) ⟨jsonNsPod⟩).podGets
        = [("kube-system", "mongo-0")]
      ∧ (onTermConnect env0 none (onConnection env0) ⟨jsonNsPod⟩).tasks
        = [Task.sending
            { Namespace := "kube-system", PodName := "mongo-0", ContainerName := "" }]
      ∧ (NewExecRequest
            { Namespace := "kube-system", PodName := "mongo-0", ContainerName := "" }).ns
        = "default"
      ∧ (run env0 (onConnection env0)
            [Label.termConnect ⟨jsonNsPod⟩ none, Label.newExecutor 0 none]).map
          (fun c => c.tasks.map fun t => match t with
            | Task.streaming req => some (req.ns, req.name)
            | _ => none)
        = some [some ("default", "mongo-0")] := by
  decide

theorem onTermConnect_tasks (env : Env) (lookup : Option Error) (c : Conn) (data : GoString) :
    (onTermConnect env lookup c data).exited = c.exited
      ∧ ((onTermConnect env lookup c data).tasks = c.tasks
        ∨ ∃ p, (onTermConnect env lookup c data).tasks = c.tasks ++ [Task.sending p]) := by
  cases hu : env.unmarshalConnect (toBytes data) with
  | error e => simp [onTermConnect, hu]
  | ok p0 =>
    by_cases hn : len p0.Namespace = 0 <;> by_cases hp : len p0.PodName = 0 <;>
      cases lookup <;> simp [onTermConnect, defaulted, hu, hn, hp]

theorem onTermConnect_socket (env : Env) (lookup : Option Error) (c : Conn)
    (data : GoString) : (onTermConnect env lookup c data).socket = c.socket := by
  cases hu : env.unmarshalConnect (toBytes data) with
  | error e => simp [onTermConnect, hu]
  | ok p0 =>
    by_cases hn : len p0.Namespace = 0 <;> by_cases hp : len p0.PodName = 0 <;>
      cases lookup <;> simp [onTermConnect, defaulted, hu, hn, hp]

theorem step_exited (env : Env) (c : Conn) (l : Label) (h : c.exited = true) :
    step env c l = none := by
  simp [step, h]

theorem step_tasks (env : Env) (c c1 : Conn) (l : Label) (hs : step env c l = some c1) :
    c.exited = false
      ∧ (c1.tasks = c.tasks
        ∨ (∃ p, c1.tasks = c.tasks ++ [Task.sending p] ∧ connects [l] = 1)
        ∨ (∃ i t t1, c.tasks[i]? = some t ∧ t ≠ Task.done ∧ c1.tasks = c.tasks.set i t1)) := by
  unfold step at hs
  by_cases hx : c.exited = true
  · simp [hx] at hs
  have hx0 : c.exited = false := by simpa using hx
  simp only [hx0, Bool.false_eq_true, if_false] at hs
  refine ⟨hx0, ?_⟩
  cases l with
  | termConnect data lookup =>
    simp only [Option.some.injEq] at hs
    subst hs
    rcases (onTermConnect_tasks env lookup c data).2 with h | ⟨p, h⟩
    · exact Or.inl h
    · exact Or.inr (Or.inl ⟨p, h, rfl⟩)
  | termStdin data =>
    simp only [onTermStdin, Option.map_eq_some'] at hs
    obtain ⟨r, _, hr⟩ := hs
    subst hr
    exact Or.inl rfl
  | termResize data =>
    simp only [onTermResize] at hs
    cases hu : env.unmarshalSize (toBytes data) with
    | error e =>
      simp only [hu, Option.some.injEq] at hs
      subst hs
      exact Or.inl rfl
    | ok p =>
      simp only [hu, Option.map_eq_some'] at hs
      obtain ⟨q, _, hq⟩ := hs
      subst hq
      exact Or.inl rfl
  | newExecutor i res =>
    cases ht : c.tasks[i]? with
    | none => simp [ht] at hs
    | some t =>
      cases t with
      | sending p =>
        simp only [ht, Option.some.injEq] at hs
        subst hs
        cases res with
        | some e => exact Or.inl rfl
        | none => exact Or.inr (Or.inr ⟨i, _, _, ht, by simp, rfl⟩)
      | streaming req => simp [ht] at hs
      | done => simp [ht] at hs
  | streamRead i p =>
    cases ht : c.tasks[i]? with
    | none => simp [ht] at hs
    | some t =>
      cases t with
      | sending p => simp [ht] at hs
      | streaming req =>
        simp only [ht, Option.map_eq_some'] at hs
        obtain ⟨r, _, hr⟩ := hs
        subst hr
        exact Or.inl rfl
      | done =>
        simp only [ht, Option.map_eq_some'] at hs
        obtain ⟨r, _, hr⟩ := hs
        subst hr
        exact Or.inl rfl
  | streamWrite i toStderr p =>
    cases ht : c.tasks[i]? with
    | none => simp [ht] at hs
    | some t =>
      cases t with
      | sending p => simp [ht] at hs
      | streaming req =>
        simp only [ht, Option.some.injEq] at hs
        subst hs
        exact Or.inl rfl
      | done => simp [ht] at hs
  | streamNext i =>
    cases ht : c.tasks[i]? with
    | none => simp [ht] at hs
    | some t =>
      cases t with
      | sending p => simp [ht] at hs
      | streaming req =>
        simp only [ht, Option.map_eq_some'] at hs
        obtain ⟨r, _, hr⟩ := hs
        subst hr
        exact Or.inl rfl
      | done =>
        simp only [ht, Option.map_eq_some'] at hs
        obtain ⟨r, _, hr⟩ := hs
        subst hr
        exact Or.inl rfl
  | streamReturn i res =>
    cases ht : c.tasks[i]? with
    | none => simp [ht] at hs
    | some t =>
      cases t with
      | sending p => simp [ht] at hs
      | streaming req =>
        simp only [ht, Option.some.injEq] at hs
        subst hs
        cases res with
        | some e => exact Or.inl rfl
        | none => exact Or.inr (Or.inr ⟨i, _, _, ht, by simp, rfl⟩)
      | done => simp [ht] at hs

theorem step_done (env : Env) (c c1 : Conn) (l : Label) (i : Nat)
    (hd : c.tasks[i]? = some Task.done) (hs : step env c l = some c1) :
    c1.tasks[i]? = some Task.done := by
  rcases (step_tasks env c c1 l hs).2 with h | ⟨p, h, _⟩ | ⟨j, t, t1, hj, hne, h⟩
  · rw [h]; exact hd
  · have hi : i < c.tasks.length := by
      rcases List.getElem?_eq_some.mp hd with ⟨hi, _⟩
      exact hi
    rw [h, List.getElem?_append_left hi]; exact hd
  · have hji : j ≠ i := by
      intro hji
      subst hji
      rw [hd] at hj
      exact hne (Option.some.inj hj).symm
    rw [h, List.getElem?_set_ne hji]; exact hd

theorem step_goroutine_disabled (env : Env) (c : Conn) (i : Nat) (res : Option Error)
    (hd : c.tasks[i]? = some Task.done) :
    step env c (Label.streamReturn i res) = none
      ∧ step env c (Label.newExecutor i res) = none := by
  by_cases hx : c.exited = true
  · exact ⟨step_exited env c _ hx, step_exited env c _ hx⟩
  · simp [step, hx, hd]

theorem run_done (env : Env) (c c1 : Conn) (ls : List Label) (i : Nat)
    (hd : c.tasks[i]? = some Task.done) (hr : run env c ls = some c1) :
    c1.tasks[i]? = some Task.done := by
  induction ls generalizing c with
  | nil => simp [run] at hr; subst hr; exact hd
  | cons l ls ih =>
    cases hs : step env c l with
    | none => simp [run, hs] at hr
    | some c2 =>
      simp only [run, hs, Option.some_bind] at hr
      exact ih c2 (step_done env c c2 l i hd hs) hr

theorem run_goroutine_absent (env : Env) (c c1 : Conn) (ls : List Label) (i : Nat)
    (hd : c.tasks[i]? = some Task.done) (hr : run env c ls = some c1)
    (res : Option Error) :
    Label.streamReturn i res ∉ ls ∧ Label.newExecutor i res ∉ ls := by
  induction ls generalizing c with
  | nil => simp
  | cons l ls ih =>
    cases hs : step env c l with
    | none => simp [run, hs] at hr
    | some c2 =>
      simp only [run, hs, Option.some_bind] at hr
      have h2 := ih c2 (step_done env c c2 l i hd hs) hr
      have h1 := step_goroutine_disabled env c i res hd
      constructor
      · intro hm
        rcases List.mem_cons.mp hm with h | h
        · rw [← h, h1.1] at hs; exact Option.noConfusion hs
        · exact h2.1 h
      · intro hm
        rcases List.mem_cons.mp hm with h | h
        · rw [← h, h1.2] at hs; exact Option.noConfusion hs
        · exact h2.2 h

theorem step_tasks_length (env : Env) (c c1 : Conn) (l : Label)
    (hs : step env c l = some c1) : c1.tasks.length ≤ c.tasks.length + connects [l] := by
  rcases (step_tasks env c c1 l hs).2 with h | ⟨p, h, hc⟩ | ⟨j, t, t1, _, _, h⟩
  · rw [h]; omega
  · rw [h, hc]; simp
  · rw [h, List.length_set]; omega

theorem run_tasks_length (env : Env) (c c1 : Conn) (ls : List Label)
    (hr : run env c ls = some c1) : c1.tasks.length ≤ c.tasks.length + connects ls := by
  induction ls generalizing c with
  | nil => simp [run] at hr; subst hr; simp
  | cons l ls ih =>
    cases hs : step env c l with
    | none => simp [run, hs] at hr
    | some c2 =>
      simp only [run, hs, Option.some_bind] at hr
      have h1 := step_tasks_length env c c2 l hs
      have h2 := ih c2 hr
      have h3 : connects (l :: ls) = connects [l] + connects ls := by
        simp only [connects, List.countP_cons, List.countP_nil]; omega
      omega

theorem step_terminated (env : Env) (c c1 : Conn) (l : Label)
    (hs : step env c l = some c1) : terminated c1 = terminated c + returnsNil [l] := by
  unfold step at hs
  by_cases hx : c.exited = true
  · simp [hx] at hs
  have hx0 : c.exited = false := by simpa using hx
  simp only [hx0, Bool.false_eq_true, if_false] at hs
  cases l with
  | termConnect data lookup =>
    simp only [Option.some.injEq] at hs
    subst hs
    simp [terminated, returnsNil, onTermConnect_socket]
  | termStdin data =>
    simp only [onTermStdin, Option.map_eq_some'] at hs
    obtain ⟨r, _, hr⟩ := hs
    subst hr
    simp [terminated, returnsNil]
  | termResize data =>
    simp only [onTermResize] at hs
    cases hu : env.unmarshalSize (toBytes data) with
    | error e =>
      simp only [hu, Option.some.injEq] at hs
      subst hs
      simp [terminated, returnsNil]
    | ok p =>
      simp only [hu, Option.map_eq_some'] at hs
      obtain ⟨q, _, hq⟩ := hs
      subst hq
      simp [terminated, returnsNil]
  | newExecutor i res =>
    cases ht : c.tasks[i]? with
    | none => simp [ht] at hs
    | some t =>
      cases t with
      | sending p =>
        simp only [ht, Option.some.injEq] at hs
        subst hs
        cases res with
        | some e => simp [terminated, returnsNil, fnOpen, goroutineReturn]
        | none => simp [terminated, returnsNil, fnOpen, Socket.Emit, List.countP_append]
      | streaming req => simp [ht] at hs
      | done => simp [ht] at hs
  | streamRead i p =>
    cases ht : c.tasks[i]? with
    | none => simp [ht] at hs
    | some t =>
      cases t with
      | sending p => simp [ht] at hs
      | streaming req =>
        simp only [ht, Option.map_eq_some'] at hs
        obtain ⟨r, _, hr⟩ := hs
        subst hr
        simp [terminated, returnsNil]
      | done =>
        simp only [ht, Option.map_eq_some'] at hs
        obtain ⟨r, _, hr⟩ := hs
        subst hr
        simp [terminated, returnsNil]
  | streamWrite i toStderr p =>
    cases ht : c.tasks[i]? with
    | none => simp [ht] at hs
    | some t =>
      cases t with
      | sending p => simp [ht] at hs
      | streaming req =>
        simp only [ht, Option.some.injEq] at hs
        subst hs
        cases toStderr <;>
          simp [terminated, returnsNil, SocketIoWriter.Write, Socket.Emit, stdoutWriter,
            stderrWriter, List.countP_append]
      | done => simp [ht] at hs
  | streamNext i =>
    cases ht : c.tasks[i]? with
    | none => simp [ht] at hs
    | some t =>
      cases t with
      | sending p => simp [ht] at hs
      | streaming req =>
        simp only [ht, Option.map_eq_some'] at hs
        obtain ⟨r, _, hr⟩ := hs
        subst hr
        simp [terminated, returnsNil]
      | done =>
        simp only [ht, Option.map_eq_some'] at hs
        obtain ⟨r, _, hr⟩ := hs
        subst hr
        simp [terminated, returnsNil]
  | streamReturn i res =>
    cases ht : c.tasks[i]? with
    | none => simp [ht] at hs
    | some t =>
      cases t with
      | sending p => simp [ht] at hs
      | streaming req =>
        simp only [ht, Option.some.injEq] at hs
        subst hs
        cases res with
        | some e => simp [terminated, returnsNil, goroutineReturn]
        | none => simp [terminated, returnsNil, goroutineReturn, Socket.Emit, List.countP_append]
      | done => simp [ht] at hs

theorem run_terminated (env : Env) (c c1 : Conn) (ls : List Label)
    (hr : run env c ls = some c1) : terminated c1 = terminated c + returnsNil ls := by
  induction ls generalizing c with
  | nil => simp [run] at hr; subst hr; simp [returnsNil]
  | cons l ls ih =>
    cases hs : step env c l with
    | none => simp [run, hs] at hr
    | some c2 =>
      simp only [run, hs, Option.some_bind] at hr
      have h1 := step_terminated env c c2 l hs
      have h2 := ih c2 hr
      have h3 : returnsNil (l :: ls) = returnsNil [l] + returnsNil ls := by
        simp only [returnsNil, List.countP_cons, List.countP_nil]; omega
      omega

/-- C3, counterexample: a session started by the valid payload
`{"pod":"mongo-0","container":"mongo"}`.  When its stream returns the error
`EOF`, after `fn` returns the process has been terminated by `log.Fatal` and
the events emitted on the socket are `open` and `term:connected` only.  When
the creation of its executor fails with `dial error`, after `fn` returns the
process has been terminated and the only event emitted is `open`.  In both
`term:terminated` is not emitted and the server process is terminated. -/
theorem fn_error_exits_without_terminated :
    (run env0 (onConnection env0)
        [Label.termConnect ⟨jsonPod⟩ none, Label.newExecutor 0 none,
         Label.streamReturn 0 (some "EOF")]).map
      (fun c => (c.exited, c.socket.emitted.map Emission.event, terminated c))
      = some (true, ["open", "term:connected"], 0)
    ∧ (run env0 (onConnection env0)
        [Label.termConnect ⟨jsonPod⟩ none, Label.newExecutor 0 (some "dial error")]).map
      (fun c => (c.exited, c.socket.emitted.map Emission.event, terminated c))
      = some (true, ["open"], 0) := by
  decide

/-- C3, amended: in a running process, for session number `i` and each
outcome of `fn`.  Stream returning nil: the goroutine's return is taken, emits
`term:terminated` exactly once (the socket's emissions grow by that one
event), leaves the process running, and in every run afterwards the goroutine
of session `i` takes no further step, every later `term:terminated` being
that of another session's nil return.  Stream returning an error, and
executor creation failing: the goroutine's return is taken, emits nothing, and
`log.Fatal` terminates the process, after which no step is enabled. -/
theorem session_goroutine_outcomes (env : Env) (c : Conn) (i : Nat)
    (hlive : c.exited = false) :
    (∀ req : Request, c.tasks[i]? = some (Task.streaming req) →
      ∃ c1, step env c (Label.streamReturn i none) = some c1
        ∧ c1.socket.emitted
            = c.socket.emitted ++ [{ event := "term:terminated", args := [] }]
        ∧ terminated c1 = terminated c + 1
        ∧ c1.exited = false
        ∧ ∀ (ls : List Label) (c2 : Conn), run env c1 ls = some c2 →
            terminated c2 = terminated c1 + returnsNil ls
              ∧ ∀ res : Option Error,
                  Label.streamReturn i res ∉ ls ∧ Label.newExecutor i res ∉ ls)
    ∧ (∀ (req : Request) (e : Error), c.tasks[i]? = some (Task.streaming req) →
      ∃ c1, step env c (Label.streamReturn i (some e)) = some c1
        ∧ c1.socket.emitted = c.socket.emitted
        ∧ c1.exited = true
        ∧ ∀ l : Label, step env c1 l = none)
    ∧ (∀ (p : TermConnectPayload) (e : Error), c.tasks[i]? = some (Task.sending p) →
      ∃ c1, step env c (Label.newExecutor i (some e)) = some c1
        ∧ c1.socket.emitted = c.socket.emitted
        ∧ c1.exited = true
        ∧ ∀ l : Label, step env c1 l = none) := by
  refine ⟨?_, ?_, ?_⟩
  · intro req ht
    have hi : i < c.tasks.length := by
      rcases List.getElem?_eq_some.mp ht with ⟨hi, _⟩
      exact hi
    have hs : step env c (Label.streamReturn i none) = some (goroutineReturn env c i none) := by
      simp [step, hlive, ht]
    refine ⟨goroutineReturn env c i none, hs, rfl, ?_, hlive, ?_⟩
    · simpa [returnsNil] using step_terminated env c _ _ hs
    · intro ls c2 hr
      have hd : (goroutineReturn env c i none).tasks[i]? = some Task.done := by
        simp [goroutineReturn, hi]
      exact ⟨run_terminated env _ c2 ls hr,
        fun res => run_goroutine_absent env _ c2 ls i hd hr res⟩
  · intro req e ht
    refine ⟨goroutineReturn env c i (some e), ?_, rfl, rfl, ?_⟩
    · simp [step, hlive, ht]
    · intro l
      exact step_exited env _ l rfl
  · intro p e ht
    refine ⟨fnOpen env c i p (some e), ?_, rfl, rfl, ?_⟩
    · simp [step, hlive, ht]
    · intro l
      exact step_exited env _ l rfl

/-- C3, witness: the session of `{"pod":"mongo-0","container":"mongo"}` on a
fresh connection; the three outcomes of `fn` at the state in which the
goroutine has been started and at the state in which it is streaming. -/
theorem session_goroutine_outcomes_witness :
    ∃ cs cp : Conn,
      run env0 (onConnection env0) [Label.termConnect ⟨jsonPod⟩ none] = some cp
      ∧ run env0 cp [Label.newExecutor 0 none] = some cs
      ∧ (∃ c1, step env0 cs (Label.streamReturn 0 none) = some c1
          ∧ c1.socket.emitted
              = cs.socket.emitted ++ [{ event := "term:terminated", args := [] }]
          ∧ terminated c1 = terminated cs + 1
          ∧ c1.exited = false
          ∧ ∀ (ls : List Label) (c2 : Conn), run env0 c1 ls = some c2 →
              terminated c2 = terminated c1 + returnsNil ls
                ∧ ∀ res : Option Error,
                    Label.streamReturn 0 res ∉ ls ∧ Label.newExecutor 0 res ∉ ls)
      ∧ (∃ c1, step env0 cs (Label.streamReturn 0 (some "EOF")) = some c1
          ∧ c1.socket.emitted = cs.socket.emitted
          ∧ c1.exited = true
          ∧ ∀ l : Label, step env0 c1 l = none)
      ∧ (∃ c1, step env0 cp (Label.newExecutor 0 (some "dial error")) = some c1
          ∧ c1.socket.emitted = cp.socket.emitted
          ∧ c1.exited = true
          ∧ ∀ l : Label, step env0 c1 l = none) :=
  ⟨_, _, rfl, rfl,
    (session_goroutine_outcomes env0 _ 0 rfl).1 _ rfl,
    (session_goroutine_outcomes env0 _ 0 rfl).2.1 _ "EOF" rfl,
    (session_goroutine_outcomes env0 _ 0 rfl).2.2 _ "dial error" rfl⟩

/-- C9, counterexample: on a fresh connection, with no session goroutine at
all, the event `term:stdin` with payload `a` is taken and leaves the chunk in
the stdin buffer, and the event `term:resize` with payload
`{"cols":80,"rows":24}` is taken and leaves the size in the resize queue:
neither is a no-op. -/
theorem stdin_and_resize_without_session_are_queued :
    (onConnection env0).tasks = []
      ∧ (onConnection env0).stdinReader.Buffer.buf = []
      ∧ (onConnection env0).sizeQueue.C.buf = []
      ∧ (step env0 (onConnection env0) (Label.termStdin ⟨[97]⟩)).map
          (fun c => c.stdinReader.Buffer.buf) = some [[97]]
      ∧ (step env0 (onConnection env0) (Label.termResize ⟨jsonSize⟩)).map
          (fun c => c.sizeQueue.C.buf) = some [{ Width := 80, Height := 24 }] := by
  decide

/-- C9, amended: in a running process and whatever the session goroutines of
the connection are (none, streaming or returned), a `term:stdin` event
arriving while the stdin buffer is not full appends its bytes as one chunk to
the stdin buffer, and a well-formed `term:resize` event arriving while the
resize queue is not full appends its size to the resize queue; each leaves
everything else of the connection, the other queue included, unchanged. -/
theorem stdin_and_resize_always_queued (env : Env) (c : Conn) (hlive : c.exited = false) :
    (∀ data : GoString,
        c.stdinReader.Buffer.buf.length < c.stdinReader.Buffer.cap →
        step env c (Label.termStdin data)
          = some { c with stdinReader := { c.stdinReader with Buffer :=
              { c.stdinReader.Buffer with
                buf := c.stdinReader.Buffer.buf ++ [toBytes data] } } })
      ∧ (∀ (data : GoString) (p : TermSizePayload),
        env.unmarshalSize (toBytes data) = .ok p →
        c.sizeQueue.C.buf.length < c.sizeQueue.C.cap →
        step env c (Label.termResize data)
          = some { c with sizeQueue := { C := { c.sizeQueue.C with
              buf := c.sizeQueue.C.buf ++ [{ Width := p.Columns, Height := p.Rows }] } } }) := by
  constructor
  · intro data hlt
    simp [step, hlive, onTermStdin, SocketIoReader.Write, Chan.send, hlt]
  · intro data p hp hlt
    simp [step, hlive, onTermResize, hp, Push_eq _ p.Columns p.Rows hlt]

/-- C9, witness: the fresh connection, the stdin payload `a` and the resize
payload `{"cols":80,"rows":24}`. -/
theorem stdin_and_resize_always_queued_witness :
    step env0 (onConnection env0) (Label.termStdin ⟨[97]⟩)
        = some { (onConnection env0) with stdinReader :=
            { Event := "term:stdin", Buffer := { cap := 30, buf := [[97]] } } }
      ∧ step env0 (onConnection env0) (Label.termResize ⟨jsonSize⟩)
        = some { (onConnection env0) with sizeQueue :=
            { C := { cap := 10, buf := [{ Width := 80, Height := 24 }] } } } :=
  ⟨(stdin_and_resize_always_queued env0 (onConnection env0) rfl).1 ⟨[97]⟩ (by decide),
   (stdin_and_resize_always_queued env0 (onConnection env0) rfl).2 ⟨jsonSize⟩
     { Columns := 80, Rows := 24 } rfl (by decide)⟩

theorem liveSessions_append_streaming (c : Conn) (ts : List Task) (req : Request)
    (h : c.tasks = ts ++ [Task.streaming req]) :
    liveSessions c = (ts.countP fun t => match t with
      | Task.streaming _ => true
      | _ => false) + 1 := by
  simp [liveSessions, h, List.countP_append]

/-- C10, counterexample: two valid `term:connect` events on one connection,
each followed by the successful creation of its executor.  Both steps of the
second session are taken while the first is streaming, and the connection
then has two sessions inside `exec.Stream`. -/
theorem second_connect_starts_second_session :
    (run env0 (onConnection env0)
        [Label.termConnect ⟨jsonPod⟩ none, Label.newExecutor 0 none]).map liveSessions
        = some 1
      ∧ (run env0 (onConnection env0)
        [Label.termConnect ⟨jsonPod⟩ none, Label.newExecutor 0 none,
         Label.termConnect ⟨jsonPod⟩ none, Label.newExecutor 1 none]).map liveSessions
        = some 2 := by
  decide

/-- C10, amended: in every state reached from a fresh connection the number
of live sessions is at most the number of `term:connect` events handled; and
the handler has no guard on live sessions: in a running process, whatever
sessions are live, a `term:connect` with a decodable payload, a non-empty pod
and a successful lookup is taken and starts one more session goroutine,
leaving the live sessions as they were; when the executor of that goroutine
is created the connection has one more live session than before, and when
its creation fails `log.Fatal` terminates the process. -/
theorem sessions_bounded_by_connects_only (env : Env) (ls : List Label) (c : Conn)
    (hr : run env (onConnection env) ls = some c) (hlive : c.exited = false) :
    liveSessions c ≤ connects ls
      ∧ ∀ (data : GoString) (p : TermConnectPayload),
          env.unmarshalConnect (toBytes data) = .ok p → p.PodName ≠ "" →
          ∃ c1, step env c (Label.termConnect data none) = some c1
            ∧ c1.tasks = c.tasks ++ [Task.sending (defaulted p)]
            ∧ liveSessions c1 = liveSessions c
            ∧ c1.exited = false
            ∧ (∃ c2, step env c1 (Label.newExecutor c.tasks.length none) = some c2
                ∧ liveSessions c2 = liveSessions c + 1
                ∧ c2.exited = false)
            ∧ ∀ e : Error,
                ∃ c2, step env c1 (Label.newExecutor c.tasks.length (some e)) = some c2
                  ∧ c2.exited = true := by
  constructor
  · have h1 := run_tasks_length env _ c ls hr
    have h2 : liveSessions c ≤ c.tasks.length := List.countP_le_length _
    have h3 : (onConnection env).tasks.length = 0 := rfl
    omega
  · intro data p hp hpod
    have hc := onTermConnect_found env c data p hp hpod
    refine ⟨onTermConnect env none c data, ?_, ?_, ?_, ?_, ?_, ?_⟩
    · simp [step, hlive]
    · rw [hc]
    · rw [hc]; simp [liveSessions, List.countP_append]
    · rw [hc]; exact hlive
    · refine ⟨{ c with
          podGets := c.podGets ++ [((defaulted p).Namespace, p.PodName)],
          socket := (c.socket.Emit env.emitResult "term:connected" []).1,
          tasks := c.tasks ++ [Task.streaming (NewExecRequest (defaulted p))] }, ?_, ?_, hlive⟩
      · rw [hc]; simp [step, hlive, fnOpen]
      · exact liveSessions_append_streaming _ c.tasks _ rfl
    · intro e
      refine ⟨{ c with
          podGets := c.podGets ++ [((defaulted p).Namespace, p.PodName)],
          tasks := c.tasks ++ [Task.sending (defaulted p)],
          exited := true }, ?_, rfl⟩
      rw [hc]; simp [step, hlive, fnOpen, goroutineReturn]

/-- C10, witness: the connection with one streaming session, reached by a
valid connect and its executor, receives the payload
`{"pod":"mongo-0","container":"mongo"}` again. -/
theorem sessions_bounded_by_connects_only_witness :
    ∃ c, run env0 (onConnection env0)
        [Label.termConnect ⟨jsonPod⟩ none, Label.newExecutor 0 none] = some c
      ∧ liveSessions c = 1
      ∧ liveSessions c ≤ connects [Label.termConnect ⟨jsonPod⟩ none, Label.newExecutor 0 none]
      ∧ ∃ c1, step env0 c (Label.termConnect ⟨jsonPod⟩ none) = some c1
          ∧ c1.tasks = c.tasks ++ [Task.sending (defaulted
              { Namespace := "", PodName := "mongo-0", ContainerName := "mongo" })]
          ∧ liveSessions c1 = liveSessions c
          ∧ c1.exited = false
          ∧ (∃ c2, step env0 c1 (Label.newExecutor c.tasks.length none) = some c2
              ∧ liveSessions c2 = liveSessions c + 1
              ∧ c2.exited = false)
          ∧ ∀ e : Error,
              ∃ c2, step env0 c1 (Label.newExecutor c.tasks.length (some e)) = some c2
                ∧ c2.exited = true :=
  ⟨_, rfl, by decide,
    (sessions_bounded_by_connects_only env0
      [Label.termConnect ⟨jsonPod⟩ none, Label.newExecutor 0 none] _ rfl rfl).1,
    (sessions_bounded_by_connects_only env0
      [Label.termConnect ⟨jsonPod⟩ none, Label.newExecutor 0 none] _ rfl rfl).2
      ⟨jsonPod⟩ { Namespace := "", PodName := "mongo-0", ContainerName := "mongo" } rfl
      (by decide)⟩

end KubernetesTerm
